import Mathlib

/-!
Verification of the three-store orchestration core in src/src/handlers.rs:
link ingestion (insert_link), similarity search aggregation (search_links)
and cascading deletion (delete_link).

The external collaborators (metadata store, blob store, vector store,
fetcher, summarizer, embedder) are modelled as oracles supplied in an
environment record: each oracle gives the result the corresponding awaited
call would return.  Every call the handler issues is recorded in an effect
trace, so frame properties (which calls happened, in which order) are
provable.  f32 similarity scores are modelled by the type Score: a rational
value or nan; the only operations the code performs on scores are the
strict comparison used for best-score updates and partial comparison with
an equal fallback used by the two sort_by calls, and both are modelled
exactly.  The iteration order of the two Rust HashMaps is modelled as
first-insertion order (association lists); Rust leaves it unspecified.
-/

/-- Error taxonomy of the spec (section 7); worker::Error is opaque in the
source, so only the distinctions the handlers actually make are modelled. -/
inductive Err where
  | notFound
  | storeFailure
  | fetchFailure
  | processingFailure
  | embeddingFailure
deriving Repr, DecidableEq

/-- The Document record (d1::DocInfo). -/
structure DocInfo where
  id : String
  url : String
  created_at : String
  bucket_path : String
  content_type : String
  size : Nat
  title : String
  summary : String
  chunk_count : Nat
deriving Repr, DecidableEq

/-- models::VectorMetadata: the metadata attached to each chunk vector. -/
structure VectorMetadata where
  document_id : String
  chunk_id : Nat
deriving Repr, DecidableEq

/-- Output of the Summarizer/Chunker (chunk_and_summary_link). -/
structure ProcessedData where
  title : String
  summary : String
  chunks : List String
deriving Repr, DecidableEq

/-- An f32 similarity score: a rational value, or nan (no total order). -/
inductive Score where
  | nan
  | val (q : ℚ)
deriving Repr, DecidableEq

/-- The f32 strict comparison a > b: false whenever nan is involved. -/
def Score.sgt : Score → Score → Bool
  | .val a, .val b => decide (b < a)
  | _, _ => false

/-- Models the comparator closure passed to both sort_by calls in
search_links: on inputs a b it computes b.partial_cmp(a).unwrap_or(Equal),
i.e. descending order on values and Equal whenever nan is involved. -/
def cmpDesc : Score → Score → Ordering
  | .val a, .val b => compare b a
  | _, _ => .eq

/-- One external call issued by a handler. -/
inductive Effect where
  | findByUrl (url : String)
  | fetch (url : String)
  | process
  | embed (chunk : String)
  | insertVector (vectorId : String) (meta : VectorMetadata) (emb : List Int)
  | saveBucket (path : String) (content : List Nat)
  | saveDb (row : DocInfo)
  | queryVectors (query : String) (k : Nat)
  | getById (docId : String)
  | deleteByUrl (url : String)
  | deleteBucket (path : String)
  | deleteVectors (docId : String) (count : Nat)
deriving Repr, DecidableEq

/-- Association-list lookup (models HashMap::get / entry presence). -/
def alookup {β : Type} (k : String) : List (String × β) → Option β
  | [] => none
  | (k', v) :: rest => if k' = k then some v else alookup k rest

/-- Association-list entry(k).or_insert(dflt) followed by applying f to the
entry: modifies the entry in place when the key is present, otherwise
appends (k, f dflt) at the end (first-insertion iteration order). -/
def aupdate {β : Type} (k : String) (f : β → β) (dflt : β) :
    List (String × β) → List (String × β)
  | [] => [(k, f dflt)]
  | (k', v) :: rest =>
    if k' = k then (k', f v) :: rest else (k', v) :: aupdate k f dflt rest

/-! ## Ingestion (insert_link) -/

/-- Results of the external calls insert_link can issue.  findResult is
what d1::find_link_by_url returns for the ingested link; the remaining
fields model the fetcher, the summarizer/chunker, the embedder and the
three store writes.  newUuid and now model Uuid::new_v4 and js_sys::Date. -/
structure IngestEnv where
  findResult : Except Err DocInfo
  newUuid : String
  now : String
  fetchResult : Except Err (List Nat × String)
  extOf : String → String
  processResult : Except Err ProcessedData
  embedChunk : String → Except Err (List Int)
  insertVector : String → VectorMetadata → List Int → Except Err Unit
  saveBucket : String → List Nat → Except Err Unit
  saveDb : DocInfo → Except Err Unit

/-- get_bucket_path from handlers.rs; extOf models
utils::get_extension_from_content_type. -/
def get_bucket_path (extOf : String → String) (content_type link_id : String) : String :=
  "content/" ++ link_id ++ "." ++ extOf content_type

/-- The sequential embedding loop of insert_link: one embedder call per
chunk, in order, aborting on the first error. -/
def embedChunks (embed : String → Except Err (List Int)) :
    List String → Except Err (List (List Int)) × List Effect
  | [] => (.ok [], [])
  | c :: rest =>
    match embed c with
    | .error e => (.error e, [.embed c])
    | .ok emb =>
      let p := embedChunks embed rest
      (match p.1 with
       | .error e => .error e
       | .ok l => .ok (emb :: l), .embed c :: p.2)

/-- The vector-insertion loop of insert_link: for index i and embedding,
insert under id link_id-i with metadata (link_id, i), aborting on error. -/
def insertVectors (ins : String → VectorMetadata → List Int → Except Err Unit)
    (link_id : String) :
    Nat → List (List Int) → Except Err Unit × List Effect
  | _, [] => (.ok (), [])
  | i, emb :: rest =>
    let vid := link_id ++ "-" ++ toString i
    let meta : VectorMetadata := ⟨link_id, i⟩
    match ins vid meta emb with
    | .error e => (.error e, [.insertVector vid meta emb])
    | .ok _ =>
      let p := insertVectors ins link_id (i + 1) rest
      (p.1, .insertVector vid meta emb :: p.2)

/-- insert_link from handlers.rs.  Note the dedup check: the source is
`if let Ok(existing_link) = d1::find_link_by_url(...)`, so EVERY error of
the lookup (not just not-found) falls through to the ingestion path. -/
def insert_link (env : IngestEnv) (link : String) : Except Err DocInfo × List Effect :=
  match env.findResult with
  | .ok existing => (.ok existing, [.findByUrl link])
  | .error _ =>
    let link_id := env.newUuid
    match env.fetchResult with
    | .error e => (.error e, [.findByUrl link, .fetch link])
    | .ok (content, content_type) =>
      let bucket_path := get_bucket_path env.extOf content_type link_id
      match env.processResult with
      | .error e => (.error e, [.findByUrl link, .fetch link, .process])
      | .ok pd =>
        let row : DocInfo :=
          { id := link_id, url := link, created_at := env.now,
            bucket_path := bucket_path, content_type := content_type,
            size := content.length, title := pd.title, summary := pd.summary,
            chunk_count := pd.chunks.length }
        let emb := embedChunks env.embedChunk pd.chunks
        let pre := [.findByUrl link, .fetch link, .process] ++ emb.2
        match emb.1 with
        | .error e => (.error e, pre)
        | .ok embeddings =>
          let ins := insertVectors env.insertVector link_id 0 embeddings
          match ins.1 with
          | .error e => (.error e, pre ++ ins.2)
          | .ok _ =>
            match env.saveBucket bucket_path content with
            | .error e => (.error e, pre ++ ins.2 ++ [.saveBucket bucket_path content])
            | .ok _ =>
              match env.saveDb row with
              | .error e =>
                (.error e, pre ++ ins.2 ++ [.saveBucket bucket_path content, .saveDb row])
              | .ok _ =>
                (.ok row, pre ++ ins.2 ++ [.saveBucket bucket_path content, .saveDb row])

/-! ## Search (search_links) -/

/-- One vector-query hit: (vector_id, score, metadata). -/
abbrev Hit := String × Score × VectorMetadata

/-- Results of the external calls search_links can issue: the single
vector query (k = 20) and d1::get_link_by_id per document id. -/
structure SearchEnv where
  queryResult : Except Err (List Hit)
  getById : String → Except Err (Option DocInfo)

/-- A HashMap built by one pass over the hits: for each hit, the entry at
its key is created from dflt when absent and then updated with the hit. -/
def agroup {α β : Type} (key : α → String) (upd : β → α → β) (dflt : β)
    (l : List α) : List (String × β) :=
  l.foldl (fun m a => aupdate (key a) (fun b => upd b a) dflt m) []

/-- The doc_matches HashMap built by the grouping loop: document_id to the
list of (score, chunk_id) pairs pushed in hit order. -/
def groupMatches (hits : List Hit) : List (String × List (Score × Nat)) :=
  agroup (fun h => h.2.2.document_id)
    (fun l h => l ++ [(h.2.1, h.2.2.chunk_id)]) [] hits

/-- The doc_best_scores HashMap built by the grouping loop: or_insert(0.0)
followed by an update when score > current (the f32 strict comparison). -/
def groupBests (hits : List Hit) : List (String × Score) :=
  agroup (fun h => h.2.2.document_id)
    (fun cur h => if Score.sgt h.2.1 cur then h.2.1 else cur) (.val 0) hits

/-- The comparator of the outer sort_by, as a relation: a sorts no later
than b when the comparator does not return Greater on (a, b). -/
def docLe (a b : String × Score) : Prop := ¬ cmpDesc a.2 b.2 = Ordering.gt

instance : DecidableRel docLe := fun a b => by unfold docLe; infer_instance

/-- The comparator of the inner (chunk) sort_by, as a relation. -/
def chunkLe (a b : Score × Nat) : Prop := ¬ cmpDesc a.1 b.1 = Ordering.gt

instance : DecidableRel chunkLe := fun a b => by unfold chunkLe; infer_instance

/-- The metadata-resolution loop of search_links over the (at most five)
selected documents: get_link_by_id, where an error is propagated by the
source's question-mark operator, a missing record is skipped, and a found
record is emitted together with its chunk ids sorted by descending score. -/
def resolveDocs (env : SearchEnv) (dms : List (String × List (Score × Nat))) :
    List (String × Score) → Except Err (List (DocInfo × List Nat)) × List Effect
  | [] => (.ok [], [])
  | (docId, _) :: rest =>
    match env.getById docId with
    | .error e => (.error e, [.getById docId])
    | .ok none =>
      let p := resolveDocs env dms rest
      (p.1, .getById docId :: p.2)
    | .ok (some info) =>
      let chunks := (alookup docId dms).getD []
      let chunk_list := (List.insertionSort chunkLe chunks).map (·.2)
      let p := resolveDocs env dms rest
      (match p.1 with
       | .error e => .error e
       | .ok l => .ok ((info, chunk_list) :: l), .getById docId :: p.2)

/-- search_links from handlers.rs. -/
def search_links (env : SearchEnv) (query : String) :
    Except Err (List (DocInfo × List Nat)) × List Effect :=
  match env.queryResult with
  | .error e => (.error e, [.queryVectors query 20])
  | .ok vector_results =>
    if vector_results.isEmpty then (.ok [], [.queryVectors query 20])
    else
      let doc_matches := groupMatches vector_results
      let sorted_docs := List.insertionSort docLe (groupBests vector_results)
      let p := resolveDocs env doc_matches (sorted_docs.take 5)
      (p.1, .queryVectors query 20 :: p.2)

/-! ## Deletion (delete_link) -/

/-- Modelled from the spec: d1::delete_link_by_url is not part of the
sources; per the external-interface table (delete-by-url: url to deleted
Document record or not-found) it removes and returns the Document record
with the given url from the metadata store, failing with NotFound when no
record has that url.  The store is modelled as the list of its records. -/
def delete_link_by_url (store : List DocInfo) (url : String) :
    Except Err (DocInfo × List DocInfo) :=
  match store with
  | [] => .error .notFound
  | r :: rest =>
    if r.url = url then .ok (r, rest)
    else
      match delete_link_by_url rest url with
      | .error e => .error e
      | .ok (d, rest') => .ok (d, r :: rest')

/-- State and oracles for delete_link: the metadata store contents, and
the results of the blob delete (by path) and the vector delete (by
document id and count). -/
structure DeleteEnv where
  store : List DocInfo
  deleteBucket : String → Except Err Unit
  deleteVectors : String → Nat → Except Err Unit

/-- delete_link from handlers.rs: delete the record by url (propagating
its error), then the blob at its bucket_path, then its chunk_count vectors
keyed by its id; each error aborts the remaining steps.  Returns the
result, the trace, and the metadata store after the call. -/
def delete_link (env : DeleteEnv) (link : String) :
    Except Err DocInfo × List Effect × List DocInfo :=
  match delete_link_by_url env.store link with
  | .error e => (.error e, [.deleteByUrl link], env.store)
  | .ok (info, store') =>
    match env.deleteBucket info.bucket_path with
    | .error e => (.error e, [.deleteByUrl link, .deleteBucket info.bucket_path], store')
    | .ok _ =>
      match env.deleteVectors info.id info.chunk_count with
      | .error e =>
        (.error e,
         [.deleteByUrl link, .deleteBucket info.bucket_path,
          .deleteVectors info.id info.chunk_count], store')
      | .ok _ =>
        (.ok info,
         [.deleteByUrl link, .deleteBucket info.bucket_path,
          .deleteVectors info.id info.chunk_count], store')

/-! ## Derived notions used by the claims -/

/-- The similarity scores of the hits whose metadata names document d. -/
def scoresOf (hits : List Hit) (d : String) : List Score :=
  hits.filterMap fun h => if h.2.2.document_id = d then some h.2.1 else none

/-- The (score, chunk_id) pairs of the hits whose metadata names d. -/
def pairsOf (hits : List Hit) (d : String) : List (Score × Nat) :=
  hits.filterMap fun h =>
    if h.2.2.document_id = d then some (h.2.1, h.2.2.chunk_id) else none

/-- The document ids named by the hits, in hit order. -/
def docIdsOf (hits : List Hit) : List String :=
  hits.map fun h => h.2.2.document_id

/-- s is the maximum of the list l under the f32 strict comparison:
it occurs in l and no element of l is strictly greater. -/
def IsMaxScore (s : Score) (l : List Score) : Prop :=
  s ∈ l ∧ ∀ t ∈ l, ¬ Score.sgt t s

/-- The best score search_links actually tracks for document d: the fold
of the best-score update over d's scores starting from 0.0. -/
def trackedBest (hits : List Hit) (d : String) : Score :=
  (scoresOf hits d).foldl (fun cur s => if Score.sgt s cur then s else cur) (.val 0)

/-- The vector insertions recorded in a trace, as (vector_id, metadata). -/
def vectorInserts (tr : List Effect) : List (String × VectorMetadata) :=
  tr.filterMap fun e =>
    match e with
    | .insertVector vid meta _ => some (vid, meta)
    | _ => none

/-- A search environment is id-consistent when every record returned by
get_link_by_id carries the id it was looked up under. -/
def IdConsistent (env : SearchEnv) : Prop :=
  ∀ d info, env.getById d = .ok (some info) → info.id = d

/-! ## Concrete environments used by counterexamples and witnesses -/

/-- A concrete Document record for witness runs. -/
def docA : DocInfo :=
  { id := "A", url := "https://a", created_at := "t0",
    bucket_path := "content/A.html", content_type := "text/html", size := 2,
    title := "TA", summary := "SA", chunk_count := 1 }

/-- Ingestion environment whose dedup lookup fails with a store failure
(not not-found) and whose every other collaborator succeeds. -/
def c1Env : IngestEnv where
  findResult := .error .storeFailure
  newUuid := "id0"
  now := "t0"
  fetchResult := .ok ([7, 7], "text/html")
  extOf := fun _ => "html"
  processResult := .ok ⟨"T", "S", ["c0"]⟩
  embedChunk := fun _ => .ok [1]
  insertVector := fun _ _ _ => .ok ()
  saveBucket := fun _ _ => .ok ()
  saveDb := fun _ => .ok ()

/-- Ingestion environment whose dedup lookup finds an existing record. -/
def c6Env : IngestEnv := { c1Env with findResult := .ok docA }

/-- Ingestion environment whose chunker returns zero chunks. -/
def c10Env : IngestEnv := { c1Env with processResult := .ok ⟨"T", "S", []⟩ }

/-- Search environment whose vector query returns no matches. -/
def c8Env : SearchEnv where
  queryResult := .ok []
  getById := fun _ => .ok none

/-! ## C1 -/

/-- C1, counterexample: the claim says a dedup lookup error that is not
not-found propagates as a store failure and aborts the request.  In the
code the lookup is an if-let on Ok, so a storeFailure lookup result does
not abort: ingestion proceeds and the run returns Ok. -/
theorem c1_lookup_error_not_propagated_cex :
    c1Env.findResult = Except.error Err.storeFailure ∧
    (insert_link c1Env "https://a").1 =
      Except.ok { id := "id0", url := "https://a", created_at := "t0",
                  bucket_path := "content/id0.html", content_type := "text/html",
                  size := 2, title := "T", summary := "S", chunk_count := 1 } :=
  ⟨rfl, rfl⟩

/-- C1, amended: every dedup lookup failure, not-found or not, is treated
exactly like not-found: the Ingestion Orchestrator proceeds and the
lookup error is never propagated to the caller. -/
theorem c1_lookup_error_proceeds (env : IngestEnv) (link : String) (e : Err)
    (h : env.findResult = .error e) :
    insert_link env link =
      insert_link { env with findResult := Except.error Err.notFound } link := by
  simp [insert_link, h]

/-- Witness for c1_lookup_error_proceeds at a concrete environment. -/
theorem c1_lookup_error_proceeds_witness :
    c1Env.findResult = Except.error Err.storeFailure ∧
    insert_link c1Env "https://a" =
      insert_link { c1Env with findResult := Except.error Err.notFound } "https://a" :=
  ⟨rfl, c1_lookup_error_proceeds c1Env "https://a" Err.storeFailure rfl⟩

/-! ## C6 -/

/-- C6: ingesting a URL whose dedup lookup finds an existing Document
record returns that record and issues no other external call: no fetch,
no embedding, and no blob, vector, or metadata write. -/
theorem c6_dedup_noop (env : IngestEnv) (link : String) (d : DocInfo)
    (h : env.findResult = .ok d) :
    insert_link env link = (.ok d, [.findByUrl link]) := by
  simp [insert_link, h]

/-- Witness for c6_dedup_noop at a concrete environment. -/
theorem c6_dedup_noop_witness :
    c6Env.findResult = Except.ok docA ∧
    insert_link c6Env "https://a" = (.ok docA, [.findByUrl "https://a"]) :=
  ⟨rfl, c6_dedup_noop c6Env "https://a" docA rfl⟩

/-! ## C8 -/

/-- C8: when the vector query returns zero matches, search_links returns
an empty result immediately, and the trace holds the single vector query
and no other store call. -/
theorem c8_empty_query_short_circuit (env : SearchEnv) (q : String)
    (h : env.queryResult = .ok []) :
    search_links env q = (.ok [], [.queryVectors q 20]) := by
  simp [search_links, h]

/-- Witness for c8_empty_query_short_circuit at a concrete environment. -/
theorem c8_empty_query_short_circuit_witness :
    c8Env.queryResult = Except.ok [] ∧
    search_links c8Env "topic" = (.ok [], [.queryVectors "topic" 20]) :=
  ⟨rfl, c8_empty_query_short_circuit c8Env "topic" rfl⟩

/-! ## C10 -/

/-- C10: when the chunker returns an empty chunk list for a new URL and
the two store writes succeed, ingestion succeeds, the trace holds no
embedder call and no vector insertion but does hold the blob write and
the metadata write, and the returned record has chunk_count zero. -/
theorem c10_empty_chunks_ingest (env : IngestEnv) (link : String) (e : Err)
    (content : List Nat) (ct ti su : String)
    (hf : env.findResult = .error e)
    (hc : env.fetchResult = .ok (content, ct))
    (hp : env.processResult = .ok ⟨ti, su, []⟩)
    (hb : env.saveBucket (get_bucket_path env.extOf ct env.newUuid) content = .ok ())
    (hd : env.saveDb
        { id := env.newUuid, url := link, created_at := env.now,
          bucket_path := get_bucket_path env.extOf ct env.newUuid, content_type := ct,
          size := content.length, title := ti, summary := su, chunk_count := 0 } = .ok ()) :
    insert_link env link =
      (.ok { id := env.newUuid, url := link, created_at := env.now,
             bucket_path := get_bucket_path env.extOf ct env.newUuid, content_type := ct,
             size := content.length, title := ti, summary := su, chunk_count := 0 },
       [.findByUrl link, .fetch link, .process,
        .saveBucket (get_bucket_path env.extOf ct env.newUuid) content,
        .saveDb { id := env.newUuid, url := link, created_at := env.now,
                  bucket_path := get_bucket_path env.extOf ct env.newUuid, content_type := ct,
                  size := content.length, title := ti, summary := su, chunk_count := 0 }]) := by
  simp [insert_link, hf, hc, hp, embedChunks, insertVectors, hb, hd]

/-- Witness for c10_empty_chunks_ingest at a concrete environment. -/
theorem c10_empty_chunks_ingest_witness :
    c10Env.findResult = Except.error Err.storeFailure ∧
    c10Env.fetchResult = Except.ok ([7, 7], "text/html") ∧
    c10Env.processResult = Except.ok ⟨"T", "S", ([] : List String)⟩ ∧
    insert_link c10Env "https://a" =
      (.ok { id := "id0", url := "https://a", created_at := "t0",
             bucket_path := get_bucket_path c10Env.extOf "text/html" "id0",
             content_type := "text/html", size := 2, title := "T", summary := "S",
             chunk_count := 0 },
       [.findByUrl "https://a", .fetch "https://a", .process,
        .saveBucket (get_bucket_path c10Env.extOf "text/html" "id0") [7, 7],
        .saveDb { id := "id0", url := "https://a", created_at := "t0",
                  bucket_path := get_bucket_path c10Env.extOf "text/html" "id0",
                  content_type := "text/html", size := 2, title := "T", summary := "S",
                  chunk_count := 0 }]) :=
  ⟨rfl, rfl, rfl,
    c10_empty_chunks_ingest c10Env "https://a" Err.storeFailure [7, 7] "text/html"
      "T" "S" rfl rfl rfl rfl rfl⟩

/-! ## C5: count invariant of ingestion -/

/-- The embedding loop issues only embedder calls: its trace holds no
vector insertion. -/
theorem vectorInserts_embedChunks (f : String → Except Err (List Int)) :
    ∀ cs : List String, vectorInserts (embedChunks f cs).2 = [] := by
  intro cs
  induction cs with
  | nil => simp [embedChunks, vectorInserts]
  | cons c rest ih =>
    cases hf : f c with
    | error e => simp [embedChunks, hf, vectorInserts]
    | ok emb => simpa [embedChunks, hf, vectorInserts] using ih

/-- A successful embedding loop returns one embedding per chunk. -/
theorem embedChunks_ok_length (f : String → Except Err (List Int)) :
    ∀ (cs : List String) (embs : List (List Int)),
      (embedChunks f cs).1 = .ok embs → embs.length = cs.length := by
  intro cs
  induction cs with
  | nil => intro embs h; simp [embedChunks] at h; simp [← h]
  | cons c rest ih =>
    intro embs h
    cases hf : f c with
    | error e => simp [embedChunks, hf] at h
    | ok emb =>
      cases he : (embedChunks f rest).1 with
      | error e => simp [embedChunks, hf, he] at h
      | ok l =>
        simp [embedChunks, hf, he] at h
        simp [← h, ih l he]

/-- A successful insertion loop starting at index i inserts exactly the
vector ids id-i .. id-(i+n-1) with the matching metadata, in order. -/
theorem insertVectors_ok_trace (ins : String → VectorMetadata → List Int → Except Err Unit)
    (id : String) :
    ∀ (embs : List (List Int)) (i : Nat),
      (insertVectors ins id i embs).1 = .ok () →
      vectorInserts (insertVectors ins id i embs).2 =
        (List.range' i embs.length).map
          (fun j => (id ++ "-" ++ toString j, (⟨id, j⟩ : VectorMetadata))) := by
  intro embs
  induction embs with
  | nil => intro i _; simp [insertVectors, vectorInserts]
  | cons emb rest ih =>
    intro i h
    cases hi : ins (id ++ "-" ++ toString i) ⟨id, i⟩ emb with
    | error e => simp [insertVectors, hi] at h
    | ok u =>
      simp only [insertVectors, hi, List.length_cons] at h ⊢
      rw [List.range'_succ]
      simpa [vectorInserts] using ih (i + 1) h

/-- C5: a successful fresh ingestion (the dedup lookup did not return a
record) with n chunker chunks returns a record with chunk_count n, and
the trace's vector insertions are exactly one per index 0..n-1 with
vector id newUuid-i and metadata (newUuid, i), and no others. -/
theorem c5_ingest_count_invariant (env : IngestEnv) (link : String) (e : Err)
    (pd : ProcessedData) (row : DocInfo) (tr : List Effect)
    (hf : env.findResult = .error e) (hp : env.processResult = .ok pd)
    (hok : insert_link env link = (.ok row, tr)) :
    row.chunk_count = pd.chunks.length ∧ row.id = env.newUuid ∧
    vectorInserts tr =
      (List.range pd.chunks.length).map
        (fun i => (env.newUuid ++ "-" ++ toString i, (⟨env.newUuid, i⟩ : VectorMetadata))) := by
  simp only [insert_link, hf] at hok
  split at hok
  · simp at hok
  next content ct hfe =>
    split at hok
    · simp at hok
    next pd' hpd =>
      rw [hp] at hpd
      injection hpd with hpd'
      subst hpd'
      split at hok
      · simp at hok
      next embs hemb =>
        split at hok
        · simp at hok
        next u hins =>
          obtain ⟨⟩ := u
          split at hok
          · simp at hok
          next u' hsb =>
            split at hok
            · simp at hok
            next u'' hsd =>
              simp only [Prod.mk.injEq, Except.ok.injEq] at hok
              obtain ⟨hrow, htr⟩ := hok
              refine ⟨by rw [← hrow], by rw [← hrow], ?_⟩
              rw [← htr]
              simp only [vectorInserts, List.filterMap_append]
              have h1 := vectorInserts_embedChunks env.embedChunk pd.chunks
              have h2 := insertVectors_ok_trace env.insertVector env.newUuid embs 0 hins
              simp only [vectorInserts] at h1 h2
              rw [h1, h2, embedChunks_ok_length env.embedChunk pd.chunks embs hemb,
                ← List.range_eq_range']
              simp [List.filterMap]

/-- The record and trace of the witness ingestion run. -/
def c5Row : DocInfo :=
  { id := "id0", url := "https://a", created_at := "t0",
    bucket_path := "content/id0.html", content_type := "text/html", size := 2,
    title := "T", summary := "S", chunk_count := 1 }

/-- The effect trace of the witness ingestion run. -/
def c5Trace : List Effect :=
  [.findByUrl "https://a", .fetch "https://a", .process, .embed "c0",
   .insertVector "id0-0" ⟨"id0", 0⟩ [1],
   .saveBucket "content/id0.html" [7, 7], .saveDb c5Row]

/-- Witness for c5_ingest_count_invariant at a concrete environment. -/
theorem c5_ingest_count_invariant_witness :
    c1Env.findResult = Except.error Err.storeFailure ∧
    c1Env.processResult = Except.ok ⟨"T", "S", ["c0"]⟩ ∧
    insert_link c1Env "https://a" = (.ok c5Row, c5Trace) ∧
    (c5Row.chunk_count = 1 ∧ c5Row.id = c1Env.newUuid ∧
     vectorInserts c5Trace =
       (List.range 1).map
         (fun i => (c1Env.newUuid ++ "-" ++ toString i,
                    (⟨c1Env.newUuid, i⟩ : VectorMetadata)))) :=
  ⟨rfl, rfl, rfl,
    c5_ingest_count_invariant c1Env "https://a" Err.storeFailure ⟨"T", "S", ["c0"]⟩
      c5Row c5Trace rfl rfl rfl⟩

/-! ## C7: deletion sequence -/

/-- A store holding no record with the given url makes the modelled
delete-by-url fail with NotFound. -/
theorem delete_link_by_url_notFound :
    ∀ (store : List DocInfo) (url : String), (∀ r ∈ store, r.url ≠ url) →
      delete_link_by_url store url = .error .notFound := by
  intro store url h
  induction store with
  | nil => rfl
  | cons r rest ih =>
    have hr : r.url ≠ url := h r (by simp)
    simp only [delete_link_by_url, if_neg hr]
    rw [ih fun x hx => h x (by simp [hx])]

/-- A successful modelled delete-by-url returns a record of the store
with the requested url, and when the store's urls are pairwise distinct
the remaining store holds no record with that url. -/
theorem delete_link_by_url_ok :
    ∀ (store : List DocInfo) (url : String) (info : DocInfo) (store' : List DocInfo),
      delete_link_by_url store url = .ok (info, store') →
      info.url = url ∧ info ∈ store ∧
      (store.Pairwise (fun a b => a.url ≠ b.url) → ∀ r ∈ store', r.url ≠ url) := by
  intro store
  induction store with
  | nil => intro url info store' h; simp [delete_link_by_url] at h
  | cons r rest ih =>
    intro url info store' h
    by_cases hr : r.url = url
    · simp only [delete_link_by_url, if_pos hr, Except.ok.injEq, Prod.mk.injEq] at h
      obtain ⟨h1, h2⟩ := h
      subst_vars
      refine ⟨rfl, by simp, fun hpw x hx hc => ?_⟩
      exact ((List.pairwise_cons.mp hpw).1 x hx) hc.symm
    · simp only [delete_link_by_url, if_neg hr] at h
      cases hrec : delete_link_by_url rest url with
      | error e => rw [hrec] at h; simp at h
      | ok p =>
        obtain ⟨d, rest'⟩ := p
        rw [hrec] at h
        simp only [Except.ok.injEq, Prod.mk.injEq] at h
        obtain ⟨h1, h2⟩ := h
        subst_vars
        obtain ⟨hu, hm, hq⟩ := ih url d rest' hrec
        refine ⟨hu, by simp [hm], fun hpw x hx => ?_⟩
        rcases List.mem_cons.mp hx with rfl | hx'
        · exact hr
        · exact hq (List.pairwise_cons.mp hpw).2 x hx'

/-- C7: delete_link first deletes and returns the Document record by url
(failing with NotFound when the url is unknown), then deletes the blob at
the record's bucket_path, then deletes the record's chunk_count vector
entries keyed by its id; each step's error aborts the subsequent steps, a
successful run returns the deleted record, and with pairwise-distinct urls
a second delete of the same url fails with NotFound. -/
theorem c7_delete_sequence (env : DeleteEnv) (link : String)
    (huniq : env.store.Pairwise (fun a b => a.url ≠ b.url)) :
    ((∀ r ∈ env.store, r.url ≠ link) →
       delete_link env link = (.error .notFound, [.deleteByUrl link], env.store)) ∧
    (∀ info store', delete_link_by_url env.store link = .ok (info, store') →
       info.url = link ∧ info ∈ env.store ∧
       (∀ e, env.deleteBucket info.bucket_path = .error e →
          delete_link env link =
            (.error e, [.deleteByUrl link, .deleteBucket info.bucket_path], store')) ∧
       (env.deleteBucket info.bucket_path = .ok () →
          (∀ e, env.deleteVectors info.id info.chunk_count = .error e →
             delete_link env link =
               (.error e, [.deleteByUrl link, .deleteBucket info.bucket_path,
                           .deleteVectors info.id info.chunk_count], store')) ∧
          (env.deleteVectors info.id info.chunk_count = .ok () →
             delete_link env link =
               (.ok info, [.deleteByUrl link, .deleteBucket info.bucket_path,
                           .deleteVectors info.id info.chunk_count], store'))) ∧
       (∀ env2 : DeleteEnv, env2.store = store' →
          (delete_link env2 link).1 = .error .notFound)) := by
  constructor
  · intro h
    have hnf := delete_link_by_url_notFound env.store link h
    simp [delete_link, hnf]
  · intro info store' hdel
    obtain ⟨hurl, hmem, huq⟩ := delete_link_by_url_ok env.store link info store' hdel
    refine ⟨hurl, hmem, ?_, ?_, ?_⟩
    · intro e he
      simp [delete_link, hdel, he]
    · intro hb
      constructor
      · intro e he
        simp [delete_link, hdel, hb, he]
      · intro hv
        simp [delete_link, hdel, hb, hv]
    · intro env2 h2
      have hnf := delete_link_by_url_notFound env2.store link (h2 ▸ huq huniq)
      simp [delete_link, hnf]

/-- A second concrete Document record for the deletion witness. -/
def docB : DocInfo :=
  { id := "B", url := "https://b", created_at := "t1",
    bucket_path := "content/B.pdf", content_type := "application/pdf", size := 3,
    title := "TB", summary := "SB", chunk_count := 2 }

/-- Deletion environment over a two-record store with all deletes ok. -/
def c7Env : DeleteEnv where
  store := [docA, docB]
  deleteBucket := fun _ => .ok ()
  deleteVectors := fun _ _ => .ok ()

/-- Witness for c7_delete_sequence at a concrete environment: the run
deletes docA, issues the three deletes in order, and a second delete of
the same url fails with NotFound. -/
theorem c7_delete_sequence_witness :
    List.Pairwise (fun a b => DocInfo.url a ≠ DocInfo.url b) [docA, docB] ∧
    delete_link_by_url [docA, docB] "https://a" = .ok (docA, [docB]) ∧
    delete_link c7Env "https://a" =
      (.ok docA,
       [.deleteByUrl "https://a", .deleteBucket "content/A.html", .deleteVectors "A" 1],
       [docB]) ∧
    (delete_link { c7Env with store := [docB] } "https://a").1 = .error .notFound := by
  have hpw : List.Pairwise (fun a b => DocInfo.url a ≠ DocInfo.url b) [docA, docB] := by
    simp [docA, docB]
  have h := (c7_delete_sequence c7Env "https://a" hpw).2 docA [docB] rfl
  exact ⟨hpw, rfl, (h.2.2.2.1 rfl).2 rfl, h.2.2.2.2 { c7Env with store := [docB] } rfl⟩

/-! ## Association-list lemmas -/

/-- Updating at a key and looking the same key up yields f applied to the
previous value or, when absent, to the default. -/
theorem alookup_aupdate_self {β : Type} (k : String) (f : β → β) (dflt : β) :
    ∀ m : List (String × β),
      alookup k (aupdate k f dflt m) = some (f ((alookup k m).getD dflt)) := by
  intro m
  induction m with
  | nil => simp [alookup, aupdate]
  | cons p rest ih =>
    obtain ⟨k', v⟩ := p
    by_cases hk : k' = k
    · simp [alookup, aupdate, hk]
    · simp [alookup, aupdate, hk, ih]

/-- Updating at another key leaves a lookup unchanged. -/
theorem alookup_aupdate_ne {β : Type} (k k' : String) (hk : k' ≠ k)
    (f : β → β) (dflt : β) :
    ∀ m : List (String × β), alookup k (aupdate k' f dflt m) = alookup k m := by
  intro m
  induction m with
  | nil => simp [alookup, aupdate, hk]
  | cons p rest ih =>
    obtain ⟨k'', v⟩ := p
    simp only [aupdate, alookup]
    by_cases hk2 : k'' = k'
    · rw [if_pos hk2]
      simp only [alookup]
      rw [if_neg (fun h => hk (hk2 ▸ h)), if_neg (fun h => hk (hk2 ▸ h))]
    · rw [if_neg hk2]
      simp only [alookup]
      by_cases hk3 : k'' = k
      · rw [if_pos hk3, if_pos hk3]
      · rw [if_neg hk3, if_neg hk3, ih]

/-- Lookup after the grouping fold, relative to an arbitrary starting
map: the entry at d folds the updates of the hits keyed d over the
previous value, or over the default when d was absent and occurs. -/
theorem alookup_foldl_aupdate {α β : Type} (key : α → String) (upd : β → α → β)
    (dflt : β) :
    ∀ (l : List α) (m : List (String × β)) (d : String),
      alookup d (l.foldl (fun m a => aupdate (key a) (fun b => upd b a) dflt m) m) =
        match alookup d m with
        | some c => some ((l.filter (fun a => key a = d)).foldl upd c)
        | none =>
          if d ∈ l.map key then
            some ((l.filter (fun a => key a = d)).foldl upd dflt)
          else none := by
  intro l
  induction l with
  | nil => intro m d; cases hm : alookup d m <;> simp [hm]
  | cons a l ih =>
    intro m d
    simp only [List.foldl_cons]
    rw [ih]
    by_cases hk : key a = d
    · rw [hk, alookup_aupdate_self]
      cases hm : alookup d m with
      | some c => simp [List.filter_cons, hk, hm]
      | none => simp [List.filter_cons, hk, hm]
    · rw [alookup_aupdate_ne d (key a) hk]
      cases hm : alookup d m with
      | some c => simp [List.filter_cons, hk, hm]
      | none =>
        have hcond : (d ∈ List.map key (a :: l)) = (d ∈ List.map key l) := by
          simp only [List.map_cons, List.mem_cons, eq_iff_iff]
          constructor
          · rintro (h | h)
            · exact absurd h.symm hk
            · exact h
          · exact Or.inr
        simp only [hm]
        simp only [hcond]
        simp [List.filter_cons, hk]
/-- Lookup in a grouped map: present exactly for the keys of the list,
with the fold of the updates of that key's elements over the default. -/
theorem alookup_agroup {α β : Type} (key : α → String) (upd : β → α → β)
    (dflt : β) (l : List α) (d : String) :
    alookup d (agroup key upd dflt l) =
      if d ∈ l.map key then
        some ((l.filter (fun a => key a = d)).foldl upd dflt)
      else none := by
  rw [agroup, alookup_foldl_aupdate]
  simp [alookup]

/-- A filterMap of an if-then-some is the map over the filter. -/
theorem filterMap_if_eq_map_filter {α β : Type} (p : α → Prop) [DecidablePred p]
    (g : α → β) :
    ∀ l : List α,
      (l.filterMap fun a => if p a then some (g a) else none) =
        (l.filter fun a => p a).map g := by
  intro l
  induction l with
  | nil => rfl
  | cons a l ih =>
    by_cases hp : p a <;> simp [List.filter_cons, hp, ih]

/-- Folding list appends of singletons is appending the map. -/
theorem foldl_append_singleton {α β : Type} (g : α → β) :
    ∀ (l : List α) (acc : List β),
      l.foldl (fun acc a => acc ++ [g a]) acc = acc ++ l.map g := by
  intro l
  induction l with
  | nil => simp
  | cons a l ih => intro acc; simp [ih]

/-- The scores of a document, via filter and map. -/
theorem scoresOf_eq (hits : List Hit) (d : String) :
    scoresOf hits d =
      ((hits.filter fun h => h.2.2.document_id = d).map fun h => h.2.1) :=
  filterMap_if_eq_map_filter _ _ hits

/-- The (score, chunk_id) pairs of a document, via filter and map. -/
theorem pairsOf_eq (hits : List Hit) (d : String) :
    pairsOf hits d =
      ((hits.filter fun h => h.2.2.document_id = d).map
        fun h => (h.2.1, h.2.2.chunk_id)) :=
  filterMap_if_eq_map_filter _ _ hits

/-- The tracked best as the fold of the best-score update over the
document's hits. -/
theorem trackedBest_eq_foldl (hits : List Hit) (d : String) :
    trackedBest hits d =
      (hits.filter fun h => h.2.2.document_id = d).foldl
        (fun cur h => if Score.sgt h.2.1 cur then h.2.1 else cur) (.val 0) := by
  rw [trackedBest, scoresOf_eq, List.foldl_map]

/-- The best-score map holds exactly the hit document ids, each bound to
its tracked best score. -/
theorem groupBests_alookup (hits : List Hit) (d : String) :
    alookup d (groupBests hits) =
      if d ∈ docIdsOf hits then some (trackedBest hits d) else none := by
  rw [groupBests, alookup_agroup, trackedBest_eq_foldl]
  rfl

/-- The matches map holds exactly the hit document ids, each bound to its
observed (score, chunk_id) pairs in hit order. -/
theorem groupMatches_alookup (hits : List Hit) (d : String) :
    alookup d (groupMatches hits) =
      if d ∈ docIdsOf hits then some (pairsOf hits d) else none := by
  rw [groupMatches, alookup_agroup,
    foldl_append_singleton (fun h : Hit => (h.2.1, h.2.2.chunk_id)), ← pairsOf_eq]
  rfl

/-- Updating preserves the key list, except a fresh key appends. -/
theorem aupdate_keys {β : Type} (k : String) (f : β → β) (dflt : β) :
    ∀ m : List (String × β),
      (aupdate k f dflt m).map Prod.fst =
        if k ∈ m.map Prod.fst then m.map Prod.fst else m.map Prod.fst ++ [k] := by
  intro m
  induction m with
  | nil => simp [aupdate]
  | cons p rest ih =>
    obtain ⟨k', v⟩ := p
    by_cases hk : k' = k
    · simp [aupdate, hk]
    · have hne : (k = k') = False := eq_false fun h => hk h.symm
      simp only [aupdate, if_neg hk, List.map_cons, ih]
      by_cases hm : k ∈ rest.map Prod.fst
      · simp [hm, hne]
      · simp [hm, hne]

/-- Updating preserves distinctness of the keys. -/
theorem keys_nodup_aupdate {β : Type} (k : String) (f : β → β) (dflt : β)
    (m : List (String × β)) (h : (m.map Prod.fst).Nodup) :
    ((aupdate k f dflt m).map Prod.fst).Nodup := by
  rw [aupdate_keys]
  by_cases hm : k ∈ m.map Prod.fst
  · simpa [hm] using h
  · simp [hm, List.nodup_append, h]

/-- A grouped map has pairwise-distinct keys. -/
theorem agroup_keys_nodup {α β : Type} (key : α → String) (upd : β → α → β)
    (dflt : β) (l : List α) :
    ((agroup key upd dflt l).map Prod.fst).Nodup := by
  rw [agroup]
  suffices h : ∀ m : List (String × β), (m.map Prod.fst).Nodup →
      (((l.foldl (fun m a => aupdate (key a) (fun b => upd b a) dflt m) m)).map
        Prod.fst).Nodup by
    exact h [] (by simp)
  induction l with
  | nil => intro m hm; simpa using hm
  | cons a l ih =>
    intro m hm
    exact ih _ (keys_nodup_aupdate (key a) _ dflt m hm)

/-- With distinct keys, membership determines the lookup. -/
theorem alookup_of_mem_nodup {β : Type} :
    ∀ (m : List (String × β)) (k : String) (v : β),
      (m.map Prod.fst).Nodup → (k, v) ∈ m → alookup k m = some v := by
  intro m
  induction m with
  | nil => intro k v _ h; simp at h
  | cons p rest ih =>
    intro k v hnd h
    obtain ⟨k', v'⟩ := p
    rw [List.map_cons] at hnd
    have hnd2 := List.nodup_cons.mp hnd
    rcases List.mem_cons.mp h with heq | hmem
    · injection heq with h1 h2
      subst h1
      simp [alookup, h2]
    · have hk : k' ≠ k := by
        intro hc
        subst hc
        exact hnd2.1 (List.mem_map.mpr ⟨(k', v), hmem, rfl⟩)
      simp only [alookup, if_neg hk]
      exact ih k v hnd2.2 hmem

/-- An entry of the best-score map names a hit document id bound to its
tracked best score. -/
theorem mem_groupBests (hits : List Hit) {d : String} {s : Score}
    (h : (d, s) ∈ groupBests hits) :
    d ∈ docIdsOf hits ∧ s = trackedBest hits d := by
  have hnd : ((groupBests hits).map Prod.fst).Nodup := by
    rw [groupBests]; exact agroup_keys_nodup _ _ _ hits
  have h1 := alookup_of_mem_nodup (groupBests hits) d s hnd h
  rw [groupBests_alookup] at h1
  by_cases hm : d ∈ docIdsOf hits
  · rw [if_pos hm] at h1
    exact ⟨hm, (Option.some.injEq .. ▸ h1).symm⟩
  · rw [if_neg hm] at h1
    simp at h1

/-! ## Score lemmas -/

/-- The f32 strict comparison is transitive. -/
theorem Score.sgt_trans : ∀ {a b c : Score},
    Score.sgt a b → Score.sgt b c → Score.sgt a c := by
  intro a b c h1 h2
  cases a with
  | nan => simp [Score.sgt] at h1
  | val qa =>
    cases b with
    | nan => simp [Score.sgt] at h1
    | val qb =>
      cases c with
      | nan => simp [Score.sgt] at h2
      | val qc =>
        simp only [Score.sgt, decide_eq_true_eq] at h1 h2 ⊢
        exact lt_trans h2 h1

/-- The f32 strict comparison is irreflexive. -/
theorem Score.sgt_irrefl : ∀ a : Score, ¬ Score.sgt a a := by
  intro a
  cases a <;> simp [Score.sgt]

/-- The best-score fold starting from a value: the result is a value, it
occurs among the start and the list, and nothing there strictly exceeds
it under the f32 comparison. -/
theorem foldBump_spec :
    ∀ (l : List Score) (q : ℚ),
      (∃ r : ℚ,
        l.foldl (fun cur s => if Score.sgt s cur then s else cur) (.val q) = .val r) ∧
      l.foldl (fun cur s => if Score.sgt s cur then s else cur) (.val q) ∈
        (Score.val q :: l) ∧
      ∀ t ∈ (Score.val q :: l),
        ¬ Score.sgt t (l.foldl (fun cur s => if Score.sgt s cur then s else cur) (.val q)) := by
  intro l
  induction l with
  | nil =>
    intro q
    refine ⟨⟨q, rfl⟩, by simp, ?_⟩
    intro t ht
    simp only [List.mem_singleton] at ht
    subst ht
    exact Score.sgt_irrefl _
  | cons s l ih =>
    intro q
    simp only [List.foldl_cons]
    by_cases hs : Score.sgt s (.val q)
    · cases s with
      | nan => simp [Score.sgt] at hs
      | val p =>
        rw [if_pos hs]
        obtain ⟨⟨r, hr⟩, hmem, hmax⟩ := ih p
        refine ⟨⟨r, hr⟩, List.mem_cons_of_mem _ hmem, ?_⟩
        intro t ht
        rcases List.mem_cons.mp ht with rfl | ht'
        · exact fun hq => hmax (.val p) (List.mem_cons_self _ _) (Score.sgt_trans hs hq)
        · exact hmax t ht'
    · rw [if_neg hs]
      obtain ⟨⟨r, hr⟩, hmem, hmax⟩ := ih q
      refine ⟨⟨r, hr⟩, ?_, ?_⟩
      · rcases List.mem_cons.mp hmem with h | h
        · rw [h]; exact List.mem_cons_self _ _
        · exact List.mem_cons_of_mem _ (List.mem_cons_of_mem _ h)
      · intro t ht
        rcases List.mem_cons.mp ht with rfl | ht'
        · exact hmax _ (List.mem_cons_self _ _)
        · rcases List.mem_cons.mp ht' with rfl | ht''
          · intro hsf
            cases t with
            | nan => simp [Score.sgt] at hsf
            | val p =>
              rw [hr] at hsf
              have h1 : ¬ Score.sgt (Score.val q) (Score.val r) :=
                hr ▸ hmax _ (List.mem_cons_self _ _)
              simp only [Score.sgt, decide_eq_true_eq] at hsf hs h1
              linarith
          · exact hmax t (List.mem_cons_of_mem _ ht'')

/-- The tracked best score is always a value, never nan. -/
theorem trackedBest_val (hits : List Hit) (d : String) :
    ∃ r : ℚ, trackedBest hits d = .val r :=
  (foldBump_spec (scoresOf hits d) 0).1

/-! ## C2 -/

/-- The hit list of the C2 counterexample: one chunk, negative score. -/
def c2CexHits : List Hit := [("A-0", (Score.val (-1), ⟨"A", 0⟩))]

/-- C2, counterexample: the claim says the tracked best equals the
maximum of the document's chunk scores for all score values, including
negative ones.  With a single chunk of score -1, the maximum is -1, but
the or_insert(0.0) accumulator makes the tracked best 0.0. -/
theorem c2_best_score_cex :
    alookup "A" (groupBests c2CexHits) = some (Score.val 0) ∧
    scoresOf c2CexHits "A" = [Score.val (-1)] ∧
    IsMaxScore (Score.val (-1)) (scoresOf c2CexHits "A") ∧
    ¬ IsMaxScore (Score.val 0) (scoresOf c2CexHits "A") := by
  refine ⟨rfl, rfl, ⟨by decide, by decide⟩, fun h => absurd h.1 (by decide)⟩

/-- C2, amended: for every document id in the vector results, the tracked
best score is the maximum of 0.0 together with the document's chunk
scores under the f32 comparison (the accumulator starts at 0.0, so for a
document whose scores are all negative it is 0.0, not the true maximum). -/
theorem c2_tracked_best_is_clamped_max (hits : List Hit) (d : String)
    (h : d ∈ docIdsOf hits) :
    ∃ s, alookup d (groupBests hits) = some s ∧
      s ∈ (Score.val 0 :: scoresOf hits d) ∧
      ∀ t ∈ (Score.val 0 :: scoresOf hits d), ¬ Score.sgt t s := by
  refine ⟨trackedBest hits d, ?_, (foldBump_spec (scoresOf hits d) 0).2.1,
    (foldBump_spec (scoresOf hits d) 0).2.2⟩
  rw [groupBests_alookup, if_pos h]

/-- The hit list of the C2 witness: positive, negative and nan scores. -/
def c2wHits : List Hit :=
  [("A-0", (Score.val 1, ⟨"A", 0⟩)),
   ("A-1", (Score.val 9, ⟨"A", 1⟩)),
   ("A-2", (Score.nan, ⟨"A", 2⟩))]

/-- Witness for c2_tracked_best_is_clamped_max at a concrete hit list. -/
theorem c2_tracked_best_is_clamped_max_witness :
    "A" ∈ docIdsOf c2wHits ∧
    (∃ s, alookup "A" (groupBests c2wHits) = some s ∧
      s ∈ (Score.val 0 :: scoresOf c2wHits "A") ∧
      ∀ t ∈ (Score.val 0 :: scoresOf c2wHits "A"), ¬ Score.sgt t s) :=
  ⟨by decide, c2_tracked_best_is_clamped_max c2wHits "A" (by decide)⟩

/-! ## C3 -/

/-- When get_link_by_id never returns an error, the resolution loop never
fails, whatever records are missing. -/
theorem resolveDocs_no_error (env : SearchEnv)
    (dms : List (String × List (Score × Nat)))
    (h : ∀ d, ∃ o, env.getById d = .ok o) :
    ∀ docs, ∃ res, (resolveDocs env dms docs).1 = .ok res := by
  intro docs
  induction docs with
  | nil => exact ⟨[], rfl⟩
  | cons p rest ih =>
    obtain ⟨d, sc⟩ := p
    obtain ⟨o, ho⟩ := h d
    obtain ⟨res, hres⟩ := ih
    cases o with
    | none => exact ⟨res, by simp [resolveDocs, ho, hres]⟩
    | some info =>
      exact ⟨(info,
          (List.insertionSort chunkLe ((alookup d dms).getD [])).map (·.2)) :: res,
        by simp [resolveDocs, ho, hres]⟩

/-- C3, amended: an error of the vector query is fatal and is returned as
the result of the whole search; a metadata miss (Ok None) while resolving
an individual document is non-fatal: when get_link_by_id never errors the
search succeeds whatever records are missing.  (A store error from
get_link_by_id, however, is fatal, unlike what the claim says: see the
counterexample.) -/
theorem c3_miss_nonfatal_query_error_fatal (env : SearchEnv) (q : String) :
    (∀ e, env.queryResult = .error e →
       search_links env q = (.error e, [.queryVectors q 20])) ∧
    ((∀ d, ∃ o, env.getById d = .ok o) →
       ∀ hits, env.queryResult = .ok hits →
         ∃ res, (search_links env q).1 = .ok res) := by
  constructor
  · intro e he
    simp [search_links, he]
  · intro hok hits hq
    by_cases hemp : hits.isEmpty
    · exact ⟨[], by simp [search_links, hq, hemp]⟩
    · obtain ⟨res, hres⟩ := resolveDocs_no_error env (groupMatches hits) hok
        ((List.insertionSort docLe (groupBests hits)).take 5)
      exact ⟨res, by simp [search_links, hq, hemp, hres]⟩

/-- The single-hit list used by the C3 environments. -/
def c3Hits : List Hit := [("D1-0", (Score.val (9/10), ⟨"D1", 0⟩))]

/-- Search environment whose metadata lookup always fails with a store
error. -/
def c3CexEnv : SearchEnv where
  queryResult := .ok c3Hits
  getById := fun _ => .error .storeFailure

/-- Search environment whose vector query fails. -/
def c3ErrEnv : SearchEnv where
  queryResult := .error .storeFailure
  getById := fun _ => .ok none

/-- Search environment whose metadata lookups all miss. -/
def c3OkEnv : SearchEnv where
  queryResult := .ok c3Hits
  getById := fun _ => .ok none

/-- C3, counterexample: the claim says any outcome of resolving an
individual document's record, not just a miss, is non-fatal.  With one
vector hit and a store error from get_link_by_id, the question-mark
operator propagates the error and the whole search fails. -/
theorem c3_metadata_error_fatal_cex :
    (search_links c3CexEnv "q").1 = .error .storeFailure := rfl

/-- Witness for c3_miss_nonfatal_query_error_fatal at concrete
environments. -/
theorem c3_miss_nonfatal_query_error_fatal_witness :
    search_links c3ErrEnv "q" = (.error .storeFailure, [.queryVectors "q" 20]) ∧
    (∃ res, (search_links c3OkEnv "q").1 = .ok res) :=
  ⟨(c3_miss_nonfatal_query_error_fatal c3ErrEnv "q").1 .storeFailure rfl,
   (c3_miss_nonfatal_query_error_fatal c3OkEnv "q").2 (fun _ => ⟨none, rfl⟩) c3Hits rfl⟩

/-! ## Order lemmas for the two sort_by comparators -/

/-- The modelled comparator is antisymmetric in the sense needed for the
sorts: a Greater verdict one way forbids Greater the other way. -/
theorem cmpDesc_total : ∀ x y : Score, ¬ cmpDesc x y ≠ .gt → cmpDesc y x ≠ .gt := by
  intro x y h
  rw [not_not] at h
  cases x with
  | nan => simp [cmpDesc] at h
  | val p =>
    cases y with
    | nan => simp [cmpDesc] at h
    | val q' =>
      simp only [cmpDesc] at h ⊢
      have h1 := compare_gt_iff_gt.mp h
      intro hc
      have h2 := compare_gt_iff_gt.mp hc
      exact absurd h1 (not_lt.mpr (le_of_lt h2))

/-- Sorting no later under the comparator means not strictly greater
under the f32 comparison. -/
theorem cmpDesc_not_sgt : ∀ x y : Score, cmpDesc x y ≠ .gt → ¬ Score.sgt y x := by
  intro x y h
  cases x with
  | nan => cases y <;> simp [Score.sgt]
  | val p =>
    cases y with
    | nan => simp [Score.sgt]
    | val q' =>
      simp only [cmpDesc] at h
      simp only [Score.sgt, decide_eq_true_eq]
      intro hc
      exact h (compare_gt_iff_gt.mpr hc)

/-- The comparator is transitive through a non-nan middle element. -/
theorem cmpDesc_trans_mid_val :
    ∀ (x z : Score) (q : ℚ), cmpDesc x (.val q) ≠ .gt → cmpDesc (.val q) z ≠ .gt →
      cmpDesc x z ≠ .gt := by
  intro x z q h1 h2
  cases x with
  | nan => cases z <;> simp [cmpDesc]
  | val p =>
    cases z with
    | nan => simp [cmpDesc]
    | val rr =>
      simp only [cmpDesc] at h1 h2 ⊢
      intro hc
      have hg := compare_gt_iff_gt.mp hc
      have hg1 : ¬ q > p := fun hx => h1 (compare_gt_iff_gt.mpr hx)
      have hg2 : ¬ rr > q := fun hx => h2 (compare_gt_iff_gt.mpr hx)
      exact absurd hg (by linarith)

/-- Inserting into a chain of the comparator-induced relation keeps it a
chain, as long as the relation is total in the sense of cmpDesc_total. -/
theorem chain'_orderedInsert {α : Type} (r : α → α → Prop) [DecidableRel r]
    (hr : ∀ a b, ¬ r a b → r b a) (a : α) :
    ∀ l, List.Chain' r l → List.Chain' r (List.orderedInsert r a l) := by
  intro l
  induction l with
  | nil => intro _; simp
  | cons b l ih =>
    intro hch
    simp only [List.orderedInsert]
    by_cases hab : r a b
    · rw [if_pos hab]
      exact List.chain'_cons.mpr ⟨hab, hch⟩
    · rw [if_neg hab]
      rw [List.chain'_cons']
      refine ⟨?_, ih (List.Chain'.tail hch)⟩
      intro y hy
      cases l with
      | nil =>
        simp only [List.orderedInsert, List.head?] at hy
        rw [Option.mem_def, Option.some.injEq] at hy
        subst hy
        exact hr a b hab
      | cons c l' =>
        simp only [List.orderedInsert] at hy
        by_cases hac : r a c
        · rw [if_pos hac] at hy
          simp only [List.head?] at hy
          rw [Option.mem_def, Option.some.injEq] at hy
          subst hy
          exact hr a b hab
        · rw [if_neg hac] at hy
          simp only [List.head?] at hy
          rw [Option.mem_def, Option.some.injEq] at hy
          subst hy
          exact (List.chain'_cons.mp hch).1

/-- The insertion sort of any list is a chain of the sort relation, as
long as the relation is total in the sense of cmpDesc_total. -/
theorem chain'_insertionSort {α : Type} (r : α → α → Prop) [DecidableRel r]
    (hr : ∀ a b, ¬ r a b → r b a) :
    ∀ l, List.Chain' r (List.insertionSort r l) := by
  intro l
  induction l with
  | nil => simp
  | cons a l ih => exact chain'_orderedInsert r hr a _ ih

/-- A chain whose relation is transitive on the list's elements is
pairwise. -/
theorem chain'_pairwise {α : Type} (r : α → α → Prop) :
    ∀ l, List.Chain' r l →
      (∀ a ∈ l, ∀ b ∈ l, ∀ c ∈ l, r a b → r b c → r a c) →
      List.Pairwise r l := by
  intro l
  induction l with
  | nil => intro _ _; exact List.Pairwise.nil
  | cons a l ih =>
    intro hch htr
    have hpl : List.Pairwise r l :=
      ih (List.Chain'.tail hch)
        (fun x hx y hy z hz => htr x (by simp [hx]) y (by simp [hy]) z (by simp [hz]))
    rw [List.pairwise_cons]
    refine ⟨?_, hpl⟩
    cases l with
    | nil => intro x hx; simp at hx
    | cons b l' =>
      intro x hx
      have hab : r a b := (List.chain'_cons.mp hch).1
      rcases List.mem_cons.mp hx with rfl | hx'
      · exact hab
      · have hbx : r b x := (List.pairwise_cons.mp hpl).1 x hx'
        exact htr a (by simp) b (by simp) x (by simp [hx']) hab hbx

/-! ## Soundness of the resolution loop -/

/-- A successful resolution run emits, for some sublist of the selected
documents, their records and sorted chunk lists, in order. -/
theorem resolveDocs_ok (env : SearchEnv) (dms : List (String × List (Score × Nat))) :
    ∀ (docs : List (String × Score)) (results : List (DocInfo × List Nat)),
      (resolveDocs env dms docs).1 = .ok results →
      ∃ sub : List (String × Score), sub.Sublist docs ∧
        List.Forall₂
          (fun (p : String × Score) (r : DocInfo × List Nat) =>
            env.getById p.1 = .ok (some r.1) ∧
            r.2 = (List.insertionSort chunkLe ((alookup p.1 dms).getD [])).map (·.2))
          sub results := by
  intro docs
  induction docs with
  | nil =>
    intro results h
    simp only [resolveDocs] at h
    rw [Except.ok.injEq] at h
    exact ⟨[], List.Sublist.refl [], h ▸ List.Forall₂.nil⟩
  | cons p rest ih =>
    intro results h
    obtain ⟨d, sc⟩ := p
    simp only [resolveDocs] at h
    cases hg : env.getById d with
    | error e => rw [hg] at h; simp at h
    | ok o =>
      cases o with
      | none =>
        rw [hg] at h
        dsimp only at h
        obtain ⟨sub, hsub, hf⟩ := ih results h
        exact ⟨sub, hsub.cons _, hf⟩
      | some info =>
        rw [hg] at h
        dsimp only at h
        cases hres : (resolveDocs env dms rest).1 with
        | error e => rw [hres] at h; simp at h
        | ok l =>
          rw [hres] at h
          rw [Except.ok.injEq] at h
          obtain ⟨sub, hsub, hf⟩ := ih l hres
          refine ⟨(d, sc) :: sub, hsub.cons₂ _, ?_⟩
          rw [← h]
          exact List.Forall₂.cons ⟨hg, rfl⟩ hf

/-- A member of the right list of a Forall₂ has a related member on the
left. -/
theorem forall₂_mem_right {α β : Type} {Q : α → β → Prop} :
    ∀ {l₁ : List α} {l₂ : List β}, List.Forall₂ Q l₁ l₂ →
      ∀ {y}, y ∈ l₂ → ∃ a ∈ l₁, Q a y := by
  intro l₁ l₂ hf
  induction hf with
  | nil => intro y hy; simp at hy
  | cons hq hf ih =>
    intro y hy
    rcases List.mem_cons.mp hy with rfl | hy'
    · exact ⟨_, by simp, hq⟩
    · obtain ⟨a, ha, hqa⟩ := ih hy'
      exact ⟨a, by simp [ha], hqa⟩

/-- Transporting pairwiseness along a Forall₂. -/
theorem pairwise_of_forall₂ {α β : Type} {Q : α → β → Prop} {R : α → α → Prop}
    {S : β → β → Prop} :
    ∀ {l₁ : List α} {l₂ : List β}, List.Forall₂ Q l₁ l₂ → List.Pairwise R l₁ →
      (∀ a b x y, Q a x → Q b y → R a b → S x y) → List.Pairwise S l₂ := by
  intro l₁ l₂ hf
  induction hf with
  | nil => intro _ _; exact List.Pairwise.nil
  | @cons a x l₁ l₂ hq hf ih =>
    intro hp himp
    refine List.Pairwise.cons ?_ (ih (List.pairwise_cons.mp hp).2 himp)
    intro y hy
    obtain ⟨b, hb, hqb⟩ := forall₂_mem_right hf hy
    exact himp a b x y hq hqb ((List.pairwise_cons.mp hp).1 b hb)

/-- Characterization of a successful search over an id-consistent
environment: at most five results, outer order pairwise non-increasing in
the tracked best score, and each emitted chunk list a permutation of the
document's observed (score, chunk_id) pairs arranged in a descending
chain of the chunk comparator. -/
theorem search_ok_spec (env : SearchEnv) (q : String) (hits : List Hit)
    (hq : env.queryResult = .ok hits) (hid : IdConsistent env)
    (results : List (DocInfo × List Nat))
    (hok : (search_links env q).1 = .ok results) :
    results.length ≤ 5 ∧
    List.Pairwise
      (fun x y : DocInfo × List Nat =>
        ¬ Score.sgt (trackedBest hits y.1.id) (trackedBest hits x.1.id)) results ∧
    ∀ p ∈ results, p.1.id ∈ docIdsOf hits ∧
      ∃ ps : List (Score × Nat), ps.Perm (pairsOf hits p.1.id) ∧
        List.Chain' chunkLe ps ∧ p.2 = ps.map (·.2) := by
  by_cases hemp : hits.isEmpty
  · have h0 : results = [] := by
      simp [search_links, hq, hemp] at hok
      exact hok
    subst h0
    exact ⟨by simp, List.Pairwise.nil, by simp⟩
  · have hok' : (resolveDocs env (groupMatches hits)
        ((List.insertionSort docLe (groupBests hits)).take 5)).1 = .ok results := by
      simpa [search_links, hq, hemp] using hok
    obtain ⟨sub, hsub, hf⟩ := resolveDocs_ok env (groupMatches hits) _ results hok'
    have hdocmem : ∀ x ∈ (List.insertionSort docLe (groupBests hits)).take 5,
        x.1 ∈ docIdsOf hits ∧ x.2 = trackedBest hits x.1 := by
      intro x hx
      have hx1 : x ∈ List.insertionSort docLe (groupBests hits) :=
        (List.take_sublist 5 _).subset hx
      have hx2 : x ∈ groupBests hits :=
        (List.perm_insertionSort docLe _).mem_iff.mp hx1
      exact mem_groupBests hits (show (x.1, x.2) ∈ groupBests hits by simpa using hx2)
    have hlen : results.length ≤ 5 := by
      rw [← hf.length_eq]
      refine hsub.length_le.trans ?_
      rw [List.length_take]
      exact min_le_left _ _
    have hch : List.Chain' docLe (List.insertionSort docLe (groupBests hits)) :=
      chain'_insertionSort docLe (fun a b hab => cmpDesc_total a.2 b.2 hab) _
    have hpw : List.Pairwise docLe (List.insertionSort docLe (groupBests hits)) := by
      refine chain'_pairwise _ _ hch ?_
      intro a _ b hb c _ h1 h2
      have hb2 : b ∈ groupBests hits :=
        (List.perm_insertionSort docLe _).mem_iff.mp hb
      obtain ⟨_, hbtb⟩ :=
        mem_groupBests hits (show (b.1, b.2) ∈ groupBests hits by simpa using hb2)
      obtain ⟨qb, hqb⟩ := trackedBest_val hits b.1
      have hbv : b.2 = Score.val qb := by rw [hbtb, hqb]
      exact cmpDesc_trans_mid_val a.2 c.2 qb (hbv ▸ h1) (hbv ▸ h2)
    have hpw5 : List.Pairwise docLe ((List.insertionSort docLe (groupBests hits)).take 5) :=
      hpw.sublist (List.take_sublist 5 _)
    have hpwR : List.Pairwise
        (fun x y : String × Score =>
          ¬ Score.sgt (trackedBest hits y.1) (trackedBest hits x.1))
        ((List.insertionSort docLe (groupBests hits)).take 5) := by
      refine List.Pairwise.imp_of_mem ?_ hpw5
      intro a b ha hb hab
      have h1 := (hdocmem a ha).2
      have h2 := (hdocmem b hb).2
      have h3 := cmpDesc_not_sgt a.2 b.2 hab
      rw [h1, h2] at h3
      exact h3
    have hpairS : List.Pairwise
        (fun x y : DocInfo × List Nat =>
          ¬ Score.sgt (trackedBest hits y.1.id) (trackedBest hits x.1.id)) results := by
      refine pairwise_of_forall₂ hf (hpwR.sublist hsub) ?_
      intro a b x y hqa hqb hr
      rw [hid a.1 x.1 hqa.1, hid b.1 y.1 hqb.1]
      exact hr
    refine ⟨hlen, hpairS, ?_⟩
    intro p hp
    obtain ⟨a, ha, hqa⟩ := forall₂_mem_right hf hp
    obtain ⟨hamem, _⟩ := hdocmem a (hsub.subset ha)
    have hpid : p.1.id = a.1 := hid a.1 p.1 hqa.1
    have hlk : alookup a.1 (groupMatches hits) = some (pairsOf hits a.1) := by
      rw [groupMatches_alookup, if_pos hamem]
    refine ⟨hpid.symm ▸ hamem,
      List.insertionSort chunkLe (pairsOf hits p.1.id),
      List.perm_insertionSort chunkLe _,
      chain'_insertionSort chunkLe (fun x y hxy => cmpDesc_total x.1 y.1 hxy) _, ?_⟩
    rw [hqa.2, hlk, hpid]
    simp

/-! ## C4 -/

/-- C4, amended: a successful search returns at most five documents; the
outer order is pairwise non-increasing in the TRACKED best score (the
maximum of 0.0 and the document's chunk scores, so it can disagree with
the true best score when all of a document's scores are negative); each
inner chunk_id list is the document's observed (score, chunk_id) pairs
arranged in a chain of the descending chunk comparator, which treats
incomparable (nan) scores as equal, and no comparison raises an error. -/
theorem c4_search_result_shape (env : SearchEnv) (q : String) (hits : List Hit)
    (hq : env.queryResult = .ok hits) (hid : IdConsistent env)
    (results : List (DocInfo × List Nat))
    (hok : (search_links env q).1 = .ok results) :
    results.length ≤ 5 ∧
    List.Pairwise
      (fun x y : DocInfo × List Nat =>
        ¬ Score.sgt (trackedBest hits y.1.id) (trackedBest hits x.1.id)) results ∧
    ∀ p ∈ results,
      ∃ ps : List (Score × Nat), ps.Perm (pairsOf hits p.1.id) ∧
        List.Chain' chunkLe ps ∧ p.2 = ps.map (·.2) :=
  have h := search_ok_spec env q hits hq hid results hok
  ⟨h.1, h.2.1, fun p hp => ((h.2.2 p hp).2 : _)⟩

/-- The hit list of the C4 counterexample: two documents, both with only
negative scores, the later one strictly better. -/
def c4CexHits : List Hit :=
  [("A-0", (Score.val (-2), ⟨"A", 0⟩)),
   ("B-0", (Score.val (-1), ⟨"B", 0⟩))]

/-- Search environment of the C4 counterexample. -/
def c4CexEnv : SearchEnv where
  queryResult := .ok c4CexHits
  getById := fun d =>
    if d = "A" then .ok (some docA) else if d = "B" then .ok (some docB) else .ok none

/-- C4, counterexample: the claim says the outer order is by descending
per-document best score.  Both documents have only negative scores, so
both tracked bests clamp to 0.0 and the code emits document A (best
score -1/2) before document B (best score -1/4), although B's best score
is strictly greater: the outer order is not descending by best score. -/
theorem c4_outer_order_cex :
    (search_links c4CexEnv "q").1 = .ok [(docA, [0]), (docB, [0])] ∧
    docA.id = "A" ∧ docB.id = "B" ∧
    IsMaxScore (Score.val (-2)) (scoresOf c4CexHits "A") ∧
    IsMaxScore (Score.val (-1)) (scoresOf c4CexHits "B") ∧
    Score.sgt (Score.val (-1)) (Score.val (-2)) = true :=
  ⟨rfl, rfl, rfl, ⟨by decide, by decide⟩, ⟨by decide, by decide⟩, by decide⟩

/-- A Document record for the witness store, id D1. -/
def docD1 : DocInfo :=
  { id := "D1", url := "https://d1", created_at := "t", bucket_path := "content/D1.html",
    content_type := "text/html", size := 1, title := "T1", summary := "S1",
    chunk_count := 3 }

/-- A Document record for the witness store, id D2. -/
def docD2 : DocInfo :=
  { id := "D2", url := "https://d2", created_at := "t", bucket_path := "content/D2.html",
    content_type := "text/html", size := 1, title := "T2", summary := "S2",
    chunk_count := 2 }

/-- The hit list of the search witnesses: D1 chunk 0 score 9, D2 chunk 1
score 8, D1 chunk 2 score 7 (the shape of spec scenario 3). -/
def c4wHits : List Hit :=
  [("D1-0", (Score.val 9, ⟨"D1", 0⟩)),
   ("D2-1", (Score.val 8, ⟨"D2", 1⟩)),
   ("D1-2", (Score.val 7, ⟨"D1", 2⟩))]

/-- Search environment of the search witnesses. -/
def c4wEnv : SearchEnv where
  queryResult := .ok c4wHits
  getById := fun d =>
    if d = "D1" then .ok (some docD1)
    else if d = "D2" then .ok (some docD2)
    else .ok none

/-- The witness environment returns records carrying the looked-up id. -/
theorem c4wEnv_idc : IdConsistent c4wEnv := by
  intro d info h
  simp only [c4wEnv] at h
  by_cases h1 : d = "D1"
  · rw [if_pos h1, Except.ok.injEq, Option.some.injEq] at h
    rw [← h, h1]
    rfl
  · rw [if_neg h1] at h
    by_cases h2 : d = "D2"
    · rw [if_pos h2, Except.ok.injEq, Option.some.injEq] at h
      rw [← h, h2]
      rfl
    · rw [if_neg h2] at h
      simp at h

/-- Witness for c4_search_result_shape at a concrete environment. -/
theorem c4_search_result_shape_witness :
    c4wEnv.queryResult = Except.ok c4wHits ∧
    IdConsistent c4wEnv ∧
    (search_links c4wEnv "topic").1 = .ok [(docD1, [0, 2]), (docD2, [1])] ∧
    ([(docD1, [0, 2]), (docD2, [1])] : List (DocInfo × List Nat)).length ≤ 5 ∧
    List.Pairwise
      (fun x y : DocInfo × List Nat =>
        ¬ Score.sgt (trackedBest c4wHits y.1.id) (trackedBest c4wHits x.1.id))
      [(docD1, [0, 2]), (docD2, [1])] ∧
    ∀ p ∈ ([(docD1, [0, 2]), (docD2, [1])] : List (DocInfo × List Nat)),
      ∃ ps : List (Score × Nat), ps.Perm (pairsOf c4wHits p.1.id) ∧
        List.Chain' chunkLe ps ∧ p.2 = ps.map (·.2) := by
  have h := c4_search_result_shape c4wEnv "topic" c4wHits rfl c4wEnv_idc
    [(docD1, [0, 2]), (docD2, [1])] rfl
  exact ⟨rfl, c4wEnv_idc, rfl, h.1, h.2.1, h.2.2⟩

/-! ## C9 -/

/-- A document id occurring in the hits has observed pairs. -/
theorem pairsOf_ne_nil (hits : List Hit) (d : String) (h : d ∈ docIdsOf hits) :
    pairsOf hits d ≠ [] := by
  obtain ⟨hh, hhm, hhd⟩ := List.mem_map.mp h
  intro hc
  have hmem : (hh.2.1, hh.2.2.chunk_id) ∈ pairsOf hits d :=
    List.mem_filterMap.mpr ⟨hh, hhm, by simp [hhd]⟩
  rw [hc] at hmem
  simp at hmem

/-- C9: every pair returned by a successful search has a non-empty
chunk_id list, and that list is a permutation of all of the document's
observed chunk_ids in the vector results. -/
theorem c9_chunk_lists_nonempty_complete (env : SearchEnv) (q : String)
    (hits : List Hit) (hq : env.queryResult = .ok hits) (hid : IdConsistent env)
    (results : List (DocInfo × List Nat))
    (hok : (search_links env q).1 = .ok results) :
    ∀ p ∈ results, p.2 ≠ [] ∧ p.2.Perm ((pairsOf hits p.1.id).map (·.2)) := by
  intro p hp
  obtain ⟨hmem, ps, hperm, _, hmap⟩ :=
    (search_ok_spec env q hits hq hid results hok).2.2 p hp
  constructor
  · rw [hmap]
    intro hc
    have hps : ps = [] := List.map_eq_nil_iff.mp hc
    have hnil : pairsOf hits p.1.id = [] := by
      have hx := hperm.symm
      rw [hps] at hx
      exact hx.eq_nil
    exact pairsOf_ne_nil hits p.1.id hmem hnil
  · rw [hmap]
    exact hperm.map (·.2)

/-- Witness for c9_chunk_lists_nonempty_complete at a concrete
environment. -/
theorem c9_chunk_lists_nonempty_complete_witness :
    c4wEnv.queryResult = Except.ok c4wHits ∧
    IdConsistent c4wEnv ∧
    (search_links c4wEnv "topic").1 = .ok [(docD1, [0, 2]), (docD2, [1])] ∧
    ∀ p ∈ ([(docD1, [0, 2]), (docD2, [1])] : List (DocInfo × List Nat)),
      p.2 ≠ [] ∧ p.2.Perm ((pairsOf c4wHits p.1.id).map (·.2)) :=
  ⟨rfl, c4wEnv_idc, rfl,
    c9_chunk_lists_nonempty_complete c4wEnv "topic" c4wHits rfl c4wEnv_idc
      [(docD1, [0, 2]), (docD2, [1])] rfl⟩
